import Mathlib

set_option maxRecDepth 16384

/-!
Shallow embedding of `src/utils/lua_dependency.py` (the Lua dependency /
bundling module of Edge-Fuzzer).

Strings are modelled as Lean `String` / `List Char`.  Python regular
expression matching is embedded by deterministic scanners that implement
the exact backtracking semantics of the concrete patterns appearing in the
source (leftmost search, greedy character classes, lazy dot-stars); the
file system is modelled as an association list from absolute path to file
content plus a set of directories; `open(path, "a")` appends, a missing
file on `open(path, "r")` is an error (`none`).
-/

/-- Characters matched by Python's regex class `\s` (ASCII part). -/
def isSpaceChar (c : Char) : Bool :=
  c = ' ' || c = '\t' || c = '\n' || c = '\r' || c = '\x0b' || c = '\x0c'

/-- Characters matched by Python's regex class `\w` (ASCII part; the inputs
of this module are ASCII source text). -/
def isWordChar (c : Char) : Bool :=
  c.isAlpha || c.isDigit || c = '_'

/-- Characters matched by `[\w\.]`, the module-path class of the require
pattern. -/
def isWordDotChar (c : Char) : Bool :=
  isWordChar c || c = '.'

/-- Strips `p` from the front of `s`, returning the remainder; models a
literal (re-escaped) fragment of a Python pattern. -/
def stripPrefixChars : List Char → List Char → Option (List Char)
  | [], s => some s
  | _ :: _, [] => none
  | p :: ps, c :: cs => if p = c then stripPrefixChars ps cs else none

/-- Maximal run of word characters and the remainder; models a greedy
`[\w_]+` / `(\w+)` item (the character class is disjoint from every
literal that follows it in the embedded patterns, so greedy matching is
maximal-munch). -/
def takeWordRun : List Char → List Char × List Char
  | [] => ([], [])
  | c :: cs =>
    if isWordChar c then
      let t := takeWordRun cs
      (c :: t.1, t.2)
    else ([], c :: cs)

/-- Maximal run of `[\w\.]` characters and the remainder (greedy
`([\w\.]+)`). -/
def takeWordDotRun : List Char → List Char × List Char
  | [] => ([], [])
  | c :: cs =>
    if isWordDotChar c then
      let t := takeWordDotRun cs
      (c :: t.1, t.2)
    else ([], c :: cs)

/-- Whether `pat` occurs as a contiguous substring of `s`. -/
def occursInB (pat : List Char) : List Char → Bool
  | [] => (stripPrefixChars pat []).isSome
  | c :: cs => (stripPrefixChars pat (c :: cs)).isSome || occursInB pat cs

/-- Single match attempt of the pattern `<module>\.[\w_]+` at the head of
`s` (the pattern of `find_references`, with `re.escape(module_name)` made
literal); on success returns the matched text and the remainder of `s`. -/
def matchRefAt (modName s : List Char) : Option (List Char × List Char) :=
  match stripPrefixChars modName s with
  | none => none
  | some [] => none
  | some (c :: s2) =>
    if c = '.' then
      if (takeWordRun s2).1.isEmpty then none
      else some (modName ++ '.' :: (takeWordRun s2).1, (takeWordRun s2).2)
    else none

/-- Left-to-right non-overlapping scan of `re.findall` for the
`find_references` pattern.  The fuel only bounds the recursion; every
step either consumes one character or a whole match (at least two
characters), so fuel equal to the input length is exact. -/
def scanRefs (modName : List Char) : Nat → List Char → List (List Char)
  | 0, _ => []
  | _ + 1, [] => []
  | fuel + 1, c :: cs =>
    match matchRefAt modName (c :: cs) with
    | some (m, rem) => m :: scanRefs modName fuel rem
    | none => scanRefs modName fuel cs

/-- Embedding of `find_references(lua_code, module_name)`:
`re.findall(rf'{re.escape(module_name)}\.[\w_]+', lua_code)`. -/
def find_references (luaCode moduleName : String) : List String :=
  (scanRefs moduleName.data (luaCode.data.length + 1) luaCode.data).map
    fun l => String.mk l

/-- Single match attempt of the require pattern
`local\s+(\w+)\s*=\s*require\s*["\']([\w\.]+)["\']` at the head of `s`;
returns the two captured groups and the remainder after the match.  All
quantifiers of the pattern are deterministic (each character class is
disjoint from the literal that follows), so maximal munch is exact. -/
def matchRequireAt (s : List Char) : Option ((String × String) × List Char) :=
  match stripPrefixChars ['l', 'o', 'c', 'a', 'l'] s with
  | none => none
  | some s1 =>
    match s1 with
    | [] => none
    | c :: rest =>
      if isSpaceChar c then
        let s2 := rest.dropWhile isSpaceChar
        let t := takeWordRun s2
        if t.1.isEmpty then none
        else
          match t.2.dropWhile isSpaceChar with
          | '=' :: s4 =>
            match stripPrefixChars ['r', 'e', 'q', 'u', 'i', 'r', 'e']
                (s4.dropWhile isSpaceChar) with
            | none => none
            | some s6 =>
              match s6.dropWhile isSpaceChar with
              | q :: s8 =>
                if q = '"' || q = '\'' then
                  let u := takeWordDotRun s8
                  if u.1.isEmpty then none
                  else
                    match u.2 with
                    | q2 :: s9 =>
                      if q2 = '"' || q2 = '\'' then
                        some ((String.mk t.1, String.mk u.1), s9)
                      else none
                    | [] => none
                else none
              | [] => none
          | _ => none
      else none

/-- Left-to-right non-overlapping scan for the require pattern
(`re.findall` returns the group tuples). -/
def scanRequires : Nat → List Char → List (String × String)
  | 0, _ => []
  | _ + 1, [] => []
  | fuel + 1, c :: cs =>
    match matchRequireAt (c :: cs) with
    | some (pr, rem) => pr :: scanRequires fuel rem
    | none => scanRequires fuel cs

/-- Embedding of `extract_local_requirements(lua_code)`. -/
def extract_local_requirements (luaCode : String) : List (String × String) :=
  scanRequires (luaCode.data.length + 1) luaCode.data

/-! Position-based matcher for the two function-block patterns of
`extract_function_block`:

* `{name}\s*=\s*function\s*\(.*?\)\s*\n(.*?)^end\s*$`  (assignment form)
* `function\s+{name}\s*\(.*?\)\s*\n(.*?)^end\s*$`      (declaration form)

both compiled with `re.MULTILINE | re.DOTALL`.  Lazy `.*?` items are
embedded as upward searches for the earliest continuation that lets the
rest of the pattern match; `\s*` before a literal outside the class is
maximal munch; `\s*\n` matches through the last newline of the maximal
whitespace run (greedy with backtracking, and the choice cannot affect
any later `^end` candidate because the skipped characters are all
whitespace); `\s*$` is a downward (greedy) search for the farthest
whitespace position that is the end of the input or sits before a
newline. -/

/-- Character of `s` at index `i`. -/
def charAt (s : List Char) (i : Nat) : Option Char := s.get? i

/-- Matches the literal `lit` at position `i`, returning the position
after it. -/
def litAt (s : List Char) : Nat → List Char → Option Nat
  | i, [] => some i
  | i, c :: cs => if charAt s i = some c then litAt s (i + 1) cs else none

/-- Length of the maximal `\s` run of `l`. -/
def spaceRunLen : List Char → Nat
  | [] => 0
  | c :: cs => if isSpaceChar c then spaceRunLen cs + 1 else 0

/-- End position of the maximal `\s` run starting at `i`. -/
def spacesEnd (s : List Char) (i : Nat) : Nat := i + spaceRunLen (s.drop i)

/-- Whether position `i` is a line start (`^` under `re.MULTILINE`). -/
def lineStartB (s : List Char) (i : Nat) : Bool :=
  i == 0 || charAt s (i - 1) == some '\n'

/-- Largest `j ≤ k` satisfying `p` (the backtracking order of a greedy
item). -/
def searchDownFrom (p : Nat → Bool) : Nat → Option Nat
  | 0 => if p 0 then some 0 else none
  | k + 1 => if p (k + 1) then some (k + 1) else searchDownFrom p k

/-- Matches `\s*\n` at `i`: consumes whitespace through the last newline
of the maximal whitespace run, failing when the run holds no newline. -/
def nlAfterSpaces (s : List Char) (i : Nat) : Option Nat :=
  match searchDownFrom
      (fun j => decide (i ≤ j) && (charAt s j == some '\n'))
      (spacesEnd s i - 1) with
  | some j => some (j + 1)
  | none => none

/-- Matches `\s*$` at `i` (MULTILINE `$`), returning the end of the whole
match: the farthest whitespace position that is the input end or sits
before a newline. -/
def dollarEnd (s : List Char) (i : Nat) : Option Nat :=
  searchDownFrom
    (fun j => decide (i ≤ j) &&
      (decide (j = s.length) || (charAt s j == some '\n')))
    (spacesEnd s i)

/-- Smallest position at or after `i` where `f` succeeds (the try order of
a lazy item); the fuel bounds the scan by the input length. -/
def upSearch (f : Nat → Option Nat) : Nat → Nat → Option Nat
  | _, 0 => none
  | i, fuel + 1 =>
    match f i with
    | some r => some r
    | none => upSearch f (i + 1) fuel

/-- Matches `\s*\n(.*?)^end\s*$` from position `i`, returning the match
end. -/
def tailAfterParen (s : List Char) (i : Nat) : Option Nat :=
  match nlAfterSpaces s i with
  | none => none
  | some p =>
    upSearch
      (fun k =>
        if lineStartB s k then
          match litAt s k ['e', 'n', 'd'] with
          | some q => dollarEnd s q
          | none => none
        else none)
      p (s.length + 1 - p)

/-- Matches `.*?\)\s*\n(.*?)^end\s*$` from position `i` (the part after
the opening parenthesis shared by both patterns). -/
def parenSearch (s : List Char) (i : Nat) : Option Nat :=
  upSearch
    (fun j => if charAt s j == some ')' then tailAfterParen s (j + 1) else none)
    i (s.length + 1 - i)

/-- Match attempt of the declaration-form pattern at position `i`. -/
def matchDeclAt (s name : List Char) (i : Nat) : Option Nat :=
  match litAt s i ['f', 'u', 'n', 'c', 't', 'i', 'o', 'n'] with
  | none => none
  | some i1 =>
    let i2 := spacesEnd s i1
    if i2 = i1 then none
    else
      match litAt s i2 name with
      | none => none
      | some i3 =>
        let i4 := spacesEnd s i3
        if charAt s i4 == some '(' then parenSearch s (i4 + 1) else none

/-- Match attempt of the assignment-form pattern at position `i`. -/
def matchAssignAt (s name : List Char) (i : Nat) : Option Nat :=
  match litAt s i name with
  | none => none
  | some i1 =>
    let i2 := spacesEnd s i1
    if charAt s i2 == some '=' then
      let i3 := spacesEnd s (i2 + 1)
      match litAt s i3 ['f', 'u', 'n', 'c', 't', 'i', 'o', 'n'] with
      | none => none
      | some i4 =>
        let i5 := spacesEnd s i4
        if charAt s i5 == some '(' then parenSearch s (i5 + 1) else none
    else none

/-- Leftmost search of `re.search`: the first start position whose match
attempt succeeds, together with the match end. -/
def searchFromPos (f : Nat → Option Nat) : Nat → Nat → Option (Nat × Nat)
  | _, 0 => none
  | i, fuel + 1 =>
    match f i with
    | some e => some (i, e)
    | none => searchFromPos f (i + 1) fuel

/-- Slice of `s` from `i` (inclusive) to `e` (exclusive) — `group(0)`. -/
def sliceChars (s : List Char) (i e : Nat) : List Char := (s.drop i).take (e - i)

/-- `re.search` of the assignment-form pattern over `code`. -/
def searchAssignForm (code name : String) : Option (Nat × Nat) :=
  searchFromPos (matchAssignAt code.data name.data) 0 (code.data.length + 1)

/-- `re.search` of the declaration-form pattern over `code`. -/
def searchDeclForm (code name : String) : Option (Nat × Nat) :=
  searchFromPos (matchDeclAt code.data name.data) 0 (code.data.length + 1)

/-- Embedding of `extract_function_block(lua_code, function_name)`: the
assignment form is tried first, then the declaration form; the matched
`group(0)` is returned, `None` when neither pattern matches. -/
def extract_function_block (code name : String) : Option String :=
  match searchAssignForm code name with
  | some pr => some (String.mk (sliceChars code.data pr.1 pr.2))
  | none =>
    match searchDeclForm code name with
    | some pr => some (String.mk (sliceChars code.data pr.1 pr.2))
    | none => none

/-! Dependency index, closure walk, and the file-system model. -/

/-- A persisted dependency index: file name → list of `(alias, dotted
path)` pairs, in insertion order (a Python dict). -/
abbrev DepIndex := List (String × List (String × String))

/-- Per-file extracted-function map (`extract_depen_obj` / `return_obj`):
absolute path → list of qualified function names, in insertion order. -/
abbrev EMap := List (String × List String)

/-- Lookup in an insertion-ordered association list (Python dict read). -/
def alistLookup {α : Type} : List (String × α) → String → Option α
  | [], _ => none
  | (k, v) :: rest, key => if k = key then some v else alistLookup rest key

/-- Update in an insertion-ordered association list (Python dict write:
an existing key keeps its position, a new key is appended). -/
def alistSet {α : Type} : List (String × α) → String → α → List (String × α)
  | [], key, v => [(key, v)]
  | (k, w) :: rest, key, v =>
    if k = key then (key, v) :: rest else (k, w) :: alistSet rest key v

/-- Embedding of Python's `str.split(sep)` for a one-character separator
(keeps empty fields). -/
def splitOnChar (sep : Char) : List Char → List (List Char)
  | [] => [[]]
  | c :: cs =>
    let r := splitOnChar sep cs
    if c = sep then [] :: r
    else
      match r with
      | [] => [[c]]
      | h :: t => (c :: h) :: t

/-- `unique.split('.')` as a list of strings. -/
def pySplitDot (u : String) : List String :=
  (splitOnChar '.' u.data).map fun l => String.mk l

/-- The seed normalization of `extract_dependencies`:
`unique.split('.')[1] if '.' in unique else unique` — the SECOND dotted
segment (index 1), not the last one. -/
def stripUnique (u : String) : String :=
  if u.data.contains '.' then (pySplitDot u).getD 1 "" else u

/-- One queue-driven walk of `extract_dependencies` (the `while not
q.empty()` loop).  The reference code keeps no visited set, so the walk
need not terminate; the fuel bounds the number of loop iterations and
`none` models a walk that is still running after `fuel` iterations. -/
def extractDepsRun (idx : DepIndex) : Nat → List String → List String → Option (List String)
  | _, [], acc => some acc
  | 0, _ :: _, _ => none
  | fuel + 1, t :: rest, acc =>
    match alistLookup idx (t ++ ".lua") with
    | some vals => extractDepsRun idx fuel (rest ++ vals.map Prod.fst) (acc ++ [t])
    | none => extractDepsRun idx fuel rest acc

/-- Embedding of `extract_dependencies(unique, dependencies_obj)`, run
with an iteration budget of `fuel`. -/
def extract_dependencies (unique : String) (idx : DepIndex) (fuel : Nat) :
    Option (List String) :=
  extractDepsRun idx fuel [stripUnique unique] []

/-- The file system seen by the module: path → content, plus the set of
directories (`os.path.isdir`). -/
structure SimFS where
  files : List (String × String)
  dirs : List String
deriving DecidableEq

/-- Embedding of `read_lua_file` — `open(path, 'r')` then `read()`;
`none` models the `FileNotFoundError` of a missing path. -/
def read_lua_file (fs : SimFS) (p : String) : Option String :=
  alistLookup fs.files p

/-- Embedding of `os.path.exists` for the paths this module touches. -/
def pathExists (fs : SimFS) (p : String) : Bool :=
  (alistLookup fs.files p).isSome

/-- Embedding of `os.path.isdir`. -/
def isDir (fs : SimFS) (p : String) : Bool := fs.dirs.contains p

/-- Embedding of `write_files(file_path, content)` — `open(path, "a")`
appends `content` to the previous content (empty when absent). -/
def write_files (fs : SimFS) (p content : String) : SimFS :=
  { fs with
    files := alistSet fs.files p ((alistLookup fs.files p).getD "" ++ content) }

/-- Embedding of `folder.replace(".", "/")` (single-character pattern). -/
def dotToSlash (s : String) : String :=
  String.mk (s.data.map fun c => if c = '.' then '/' else c)

/-- Embedding of Python `str.rstrip()` (whitespace suffix removed). -/
def pyRstrip (s : String) : String :=
  String.mk (s.data.reverse.dropWhile isSpaceChar).reverse

/-- Non-overlapping left-to-right replacement, the core of Python's
`str.replace` for a non-empty pattern. -/
def replaceFromAux (p : Char) (ps rep : List Char) : Nat → List Char → List Char
  | 0, s => s
  | _ + 1, [] => []
  | fuel + 1, c :: cs =>
    match stripPrefixChars (p :: ps) (c :: cs) with
    | some rem => rep ++ replaceFromAux p ps rep fuel rem
    | none => c :: replaceFromAux p ps rep fuel cs

/-- Embedding of Python's `s.replace(pat, rep)` (an empty pattern inserts
`rep` at every boundary, as Python does). -/
def pyReplace (s pat rep : String) : String :=
  match pat.data with
  | [] => String.mk (rep.data ++ s.data.foldr (fun c acc => c :: (rep.data ++ acc)) [])
  | p :: ps => String.mk (replaceFromAux p ps rep.data (s.data.length + 1) s.data)

/-- Deduplication keeping the first occurrence; models `list(set(xs))`
up to ordering (Python's set iteration order over strings is
implementation-defined; every use in the claims below is
order-insensitive or applies it to lists without duplicates). -/
def dedupFirst : Nat → List String → List String
  | 0, _ => []
  | _ + 1, [] => []
  | fuel + 1, x :: xs => x :: dedupFirst fuel (xs.filter fun y => y ≠ x)

/-- `list(set(xs))` for the reference lists of this module. -/
def pyListSet (l : List String) : List String := dedupFirst (l.length + 1) l

/-! JSON serialization (`json.dumps` with default separators) and parsing
(`json.loads`) for the persisted index.  The parser covers the shape the
module itself writes and reads — an object mapping string keys to arrays
of two-string arrays with the standard one-character escapes; any other
document is rejected (`none`), which models either a load error or the
unpacking `for module, reference in …` failing on a differently-shaped
value. -/

/-- The `{` character (written by code point to keep brace characters out
of string literals). -/
def lbrace : Char := Char.ofNat 123

/-- The `}` character. -/
def rbrace : Char := Char.ofNat 125

/-- JSON insignificant whitespace. -/
def isJsonWs (c : Char) : Bool :=
  c = ' ' || c = '\t' || c = '\n' || c = '\r'

/-- Skips JSON whitespace. -/
def skipJsonWs (s : List Char) : List Char := s.dropWhile isJsonWs

/-- Escapes of `json.dumps` for the characters appearing in this module's
data (other control characters do not occur in the scanned sources). -/
def jsonEscapeChar (c : Char) : List Char :=
  if c = '"' then ['\\', '"']
  else if c = '\\' then ['\\', '\\']
  else if c = '\n' then ['\\', 'n']
  else if c = '\t' then ['\\', 't']
  else if c = '\r' then ['\\', 'r']
  else [c]

/-- A JSON string literal. -/
def jsonStr (s : String) : String :=
  String.mk ('"' :: (s.data.map jsonEscapeChar).flatten ++ ['"'])

/-- One `[alias, dotted_path]` entry. -/
def jsonPairDump (pr : String × String) : String :=
  "[" ++ jsonStr pr.1 ++ ", " ++ jsonStr pr.2 ++ "]"

/-- An array of `[alias, dotted_path]` entries. -/
def jsonValDump (l : List (String × String)) : String :=
  "[" ++ String.intercalate ", " (l.map jsonPairDump) ++ "]"

/-- `json.dumps` of the index object (default separators `", "` and
`": "`). -/
def jsonDumps (idx : DepIndex) : String :=
  String.mk (lbrace ::
    (String.intercalate ", "
      (idx.map fun kv => jsonStr kv.1 ++ ": " ++ jsonValDump kv.2)).data
    ++ [rbrace])

/-- Parses the character content of a JSON string after the opening
quote, unescaping the standard one-character escapes. -/
def pStrChars : Nat → List Char → List Char → Option (String × List Char)
  | 0, _, _ => none
  | _ + 1, [], _ => none
  | fuel + 1, c :: cs, acc =>
    if c = '"' then some (String.mk acc.reverse, cs)
    else if c = '\\' then
      match cs with
      | [] => none
      | e :: cs2 =>
        let d : Option Char :=
          if e = '"' then some '"'
          else if e = '\\' then some '\\'
          else if e = '/' then some '/'
          else if e = 'n' then some '\n'
          else if e = 't' then some '\t'
          else if e = 'r' then some '\r'
          else if e = 'b' then some (Char.ofNat 8)
          else if e = 'f' then some (Char.ofNat 12)
          else none
        match d with
        | some ch => pStrChars fuel cs2 (ch :: acc)
        | none => none
    else pStrChars fuel cs (c :: acc)

/-- Parses a JSON string token. -/
def pStringTok (fuel : Nat) (s : List Char) : Option (String × List Char) :=
  match s with
  | '"' :: rest => pStrChars fuel rest []
  | _ => none

/-- Parses a two-string array `["alias", "path"]`. -/
def pPairLit (fuel : Nat) (s : List Char) : Option ((String × String) × List Char) :=
  match s with
  | '[' :: r0 =>
    match pStringTok fuel (skipJsonWs r0) with
    | none => none
    | some (a, r2) =>
      match skipJsonWs r2 with
      | ',' :: r4 =>
        match pStringTok fuel (skipJsonWs r4) with
        | none => none
        | some (b, r6) =>
          match skipJsonWs r6 with
          | ']' :: r8 => some ((a, b), r8)
          | _ => none
      | _ => none
  | _ => none

/-- Parses the items of a non-empty array of pairs. -/
def pPairItems : Nat → List Char → List (String × String) →
    Option (List (String × String) × List Char)
  | 0, _, _ => none
  | fuel + 1, s, acc =>
    match pPairLit fuel s with
    | none => none
    | some (pr, r1) =>
      match skipJsonWs r1 with
      | ',' :: r3 => pPairItems fuel (skipJsonWs r3) (acc ++ [pr])
      | ']' :: r3 => some (acc ++ [pr], r3)
      | _ => none

/-- Parses an array of pairs. -/
def pPairArray (fuel : Nat) (s : List Char) :
    Option (List (String × String) × List Char) :=
  match s with
  | '[' :: r0 =>
    match skipJsonWs r0 with
    | ']' :: r2 => some ([], r2)
    | r1 => pPairItems fuel r1 []
  | _ => none

/-- Parses the entries of a non-empty object (duplicate keys update in
place, as in a Python dict). -/
def pEntryItems : Nat → List Char → DepIndex → Option (DepIndex × List Char)
  | 0, _, _ => none
  | fuel + 1, s, acc =>
    match pStringTok fuel s with
    | none => none
    | some (k, r1) =>
      match skipJsonWs r1 with
      | ':' :: r3 =>
        match pPairArray fuel (skipJsonWs r3) with
        | none => none
        | some (v, r4) =>
          match skipJsonWs r4 with
          | [] => none
          | c :: r6 =>
            if c = ',' then pEntryItems fuel (skipJsonWs r6) (alistSet acc k v)
            else if c = rbrace then some (alistSet acc k v, r6)
            else none
      | _ => none

/-- Embedding of `json.loads` on the index documents of this module. -/
def jsonLoadsIndex (s : String) : Option DepIndex :=
  match skipJsonWs s.data with
  | [] => none
  | c :: r0 =>
    if c = lbrace then
      match skipJsonWs r0 with
      | [] => none
      | d :: r2 =>
        if d = rbrace then
          if (skipJsonWs r2).isEmpty then some [] else none
        else
          match pEntryItems (r0.length + 1) (skipJsonWs r0) [] with
          | none => none
          | some (idx, rest) =>
            if (skipJsonWs rest).isEmpty then some idx else none
    else none

/-! The bundling pipeline: `parse_transmitting_dependency`,
`get_target_code`, `generate_new_combine_lua`, and the scanner
`generate_dependency_json`.  A function that can raise returns
`Option` (`none` = a propagated exception; an exhausted closure-walk
budget also propagates as `none`). -/

/-- Fold threading an `Option` state (a Python `for` loop whose body can
raise). -/
def optFoldl {σ α : Type} (f : σ → α → Option σ) : σ → List α → Option σ
  | s, [] => some s
  | s, a :: as =>
    match f s a with
    | none => none
    | some s2 => optFoldl f s2 as

/-- Like `optFoldl` but returning every intermediate state (used to state
the map-growth claims over one resolution). -/
def optScan {σ α : Type} (f : σ → α → Option σ) : σ → List α → Option (List σ)
  | s, [] => some [s]
  | s, a :: as =>
    match f s a with
    | none => none
    | some s2 =>
      match optScan f s2 as with
      | none => none
      | some l => some (s :: l)

/-- Body of the `for value in value_array` loop of
`parse_transmitting_dependency`: when the referenced module has its own
index entry the file is read unconditionally (a missing file raises);
otherwise the file is read only if it exists and is skipped otherwise. -/
def parseValueStep (fs : SimFS) (parentFolder : String) (idx : DepIndex)
    (m : EMap) (value : String × String) : Option EMap :=
  let unique := value.1
  let target := parentFolder ++ "/" ++ dotToSlash value.2 ++ ".lua"
  if (alistLookup idx (unique ++ ".lua")).isSome then
    match read_lua_file fs target with
    | none => none
    | some code =>
      some (alistSet m target (pyListSet (find_references code unique)))
  else
    match read_lua_file fs target with
    | none => some m
    | some code =>
      some (alistSet m target (pyListSet (find_references code unique)))

/-- Embedding of `parse_transmitting_dependency(parent_folder, depen_dic,
dependencies_obj)`. -/
def parse_transmitting_dependency (fs : SimFS) (parentFolder : String)
    (depenDic : List String) (idx : DepIndex) : Option EMap :=
  optFoldl
    (fun m depen =>
      optFoldl (parseValueStep fs parentFolder idx) m
        ((alistLookup idx (depen ++ ".lua")).getD []))
    [] depenDic

/-- The leaf-branch map update of `get_target_code`: start a new entry
with `[unique]` or append `unique` to the existing one. -/
def growEntry (m : EMap) (target u : String) : EMap :=
  match alistLookup m target with
  | none => alistSet m target [u]
  | some vs => alistSet m target (vs ++ [u])

/-- The merge loop `for val in values: if val not in …: append` of
`get_target_code`. -/
def mergeVals (cur vals : List String) : List String :=
  vals.foldl (fun acc v => if v ∈ acc then acc else acc ++ [v]) cur

/-- The `for key in return_obj` merge of `get_target_code`: absent keys
are inserted, present keys accumulate the values not already there. -/
def mergeReturnObj (m ret : EMap) : EMap :=
  ret.foldl
    (fun acc kv =>
      match alistLookup acc kv.1 with
      | none => alistSet acc kv.1 kv.2
      | some cur => alistSet acc kv.1 (mergeVals cur kv.2)) m

/-- The combo file path assigned at the non-leaf branch of
`get_target_code` (`f'{reference.replace(".", "/")}/{unique.split(".")[1]}.lua'`). -/
def comboPath (parentFolder reference u : String) : String :=
  parentFolder ++ "/" ++
    (dotToSlash reference ++ "/" ++ (pySplitDot u).getD 1 "" ++ ".lua")

/-- The leaf-branch target path of `get_target_code`
(`{sub_destination}/init.lua` for a directory, `{sub_destination}.lua`
otherwise). -/
def leafTarget (parentFolder reference : String) (folderFlag : Bool) : String :=
  if folderFlag then parentFolder ++ "/" ++ dotToSlash reference ++ "/init.lua"
  else parentFolder ++ "/" ++ dotToSlash reference ++ ".lua"

/-- Body of the `for unique in unique_functions` loop of
`get_target_code` for one referenced qualified name `u`. -/
def processUnique (fs : SimFS) (parentFolder reference : String)
    (folderFlag : Bool) (idx : DepIndex) (fuel : Nat) (m : EMap) (u : String) :
    Option EMap :=
  match extract_dependencies u idx fuel with
  | none => none
  | some depenDic =>
    if depenDic.length ≤ 0 then
      some (growEntry m (leafTarget parentFolder reference folderFlag) u)
    else
      match parse_transmitting_dependency fs parentFolder depenDic idx with
      | none => none
      | some ret =>
        some (mergeReturnObj (alistSet m (comboPath parentFolder reference u) []) ret)

/-- The flattened list of `(reference, folder_flag, unique)` steps of the
two nested loops of `get_target_code`, in execution order. -/
def uniqueTasks (fs : SimFS) (parentFolder codeContent : String)
    (arr : List (String × String)) : List (String × Bool × String) :=
  (arr.map fun mr =>
    (pyListSet (find_references codeContent mr.1)).map fun u =>
      (mr.2, isDir fs (parentFolder ++ "/" ++ dotToSlash mr.2), u)).flatten

/-- The `extract_depen_obj` accumulation of `get_target_code`. -/
def buildExtractDepenObj (fs : SimFS) (parentFolder codeContent : String)
    (idx : DepIndex) (arr : List (String × String)) (fuel : Nat) : Option EMap :=
  optFoldl
    (fun m task => processUnique fs parentFolder task.1 task.2.1 idx fuel m task.2.2)
    [] (uniqueTasks fs parentFolder codeContent arr)

/-- The successive `extract_depen_obj` states of one resolution (initial
state, then the state after each `unique` step). -/
def extractDepenObjTrace (fs : SimFS) (parentFolder codeContent : String)
    (idx : DepIndex) (arr : List (String × String)) (fuel : Nat) :
    Option (List EMap) :=
  optScan
    (fun m task => processUnique fs parentFolder task.1 task.2.1 idx fuel m task.2.2)
    [] (uniqueTasks fs parentFolder codeContent arr)

/-- The `_utils` normalization of `generate_new_combine_lua`:
`utils.{func.split(".")[1]}` when `'_utils' in func`. -/
def utilsNormalize (func : String) : String :=
  if occursInB "_utils".data func.data then
    "utils." ++ (pySplitDot func).getD 1 ""
  else func

/-- Body of the `for key in extract_depen_obj` loop of
`generate_new_combine_lua`: a missing file is skipped, otherwise each
listed function block that matches is rewritten back to the call-site
name and appended to the running buffer. -/
def combineForFile (fs : SimFS) (acc : String) (entry : String × List String) : String :=
  if pathExists fs entry.1 then
    match read_lua_file fs entry.1 with
    | none => acc
    | some content =>
      entry.2.foldl
        (fun acc2 func =>
          let temp := utilsNormalize func
          match extract_function_block content temp with
          | none => acc2
          | some blk => acc2 ++ "\n" ++ pyReplace blk temp func)
        acc
  else acc

/-- The begin delimiter comment of the bundle prologue. -/
def beginDelim : String :=
  "------------------import functions begin------------------"

/-- The end delimiter comment of the bundle prologue. -/
def endDelim : String :=
  "------------------import functions end------------------"

/-- The exact `write_code` f-string of `generate_new_combine_lua`
(triple-quoted literal: indentation, escaped and literal newlines). -/
def bundleText (combineCode originalCode : String) : String :=
  "\n    " ++ beginDelim ++ "\n\n    " ++ combineCode ++ "\n\n    " ++
    endDelim ++ "\n\n\n    " ++ originalCode ++ "\n    "

/-- Embedding of `generate_new_combine_lua(parent_folder, sub_folder,
filename, extract_depen_obj)`. -/
def generate_new_combine_lua (fs : SimFS) (parentFolder subFolder filename : String)
    (extractDepenObj : EMap) : Option SimFS :=
  match read_lua_file fs (parentFolder ++ "/" ++ subFolder ++ "/" ++ filename) with
  | none => none
  | some originalCode =>
    let combineCode := extractDepenObj.foldl (combineForFile fs) ""
    let writePath := parentFolder ++ "/" ++ subFolder ++ "/" ++
      ((pySplitDot filename).getD 0 "" ++ "_new.lua")
    some (write_files fs writePath (bundleText combineCode originalCode))

/-- Embedding of `get_target_code(parent_folder, sub_folder, filename,
dependencies_file)` with a closure-walk budget of `fuel`.  The result is
the file system after the run (`none` = a propagated error; the early
`return` when the target has no index entry leaves it unchanged). -/
def get_target_code (fs : SimFS) (parentFolder subFolder filename
    dependenciesFile : String) (fuel : Nat) : Option SimFS :=
  match read_lua_file fs dependenciesFile with
  | none => none
  | some depContent =>
    match jsonLoadsIndex (pyRstrip depContent) with
    | none => none
    | some idx =>
      match alistLookup idx filename with
      | none => some fs
      | some arr =>
        match read_lua_file fs
            (parentFolder ++ "/" ++ subFolder ++ "/" ++ filename) with
        | none => none
        | some codeContent =>
          match buildExtractDepenObj fs parentFolder codeContent idx arr fuel with
          | none => none
          | some m => generate_new_combine_lua fs parentFolder subFolder filename m

/-- Base name of a path (the `file` component `os.walk` yields). -/
def baseNameOf (p : String) : String :=
  ((splitOnChar '/' p.data).map fun l => String.mk l).getLast?.getD p

/-- Whether a path lies under the walked root (`os.walk(folder)`
enumeration, modelled over the file list of the file system). -/
def underFolder (folder p : String) : Bool :=
  (stripPrefixChars (folder ++ "/").data p.data).isSome

/-- Whether a file name ends in `.lua` (`file.endswith('.lua')`). -/
def endsWithLua (name : String) : Bool :=
  (stripPrefixChars ".lua".data.reverse name.data.reverse).isSome

/-- Whether the scanner records a walked file: it lies under the root,
its name ends in `.lua`, and it declares at least one local require. -/
def scanRecorded (folder : String) (entry : String × String) : Bool :=
  underFolder folder entry.1 && endsWithLua (baseNameOf entry.1)
    && !(extract_local_requirements entry.2).isEmpty

/-- Body of the scanner loop of `generate_dependency_json`: record a
walked `.lua` file under its bare name when it declares at least one
local require. -/
def scanFileStep (folder : String) (idx : DepIndex) (entry : String × String) :
    DepIndex :=
  if scanRecorded folder entry then
    alistSet idx (baseNameOf entry.1) (extract_local_requirements entry.2)
  else idx

/-- The `requirement_local` mapping accumulated by
`generate_dependency_json` (walk order modelled as the file-list order of
the file system). -/
def scanIndex (fs : SimFS) (folder : String) : DepIndex :=
  fs.files.foldl (scanFileStep folder) []

/-- Embedding of `generate_dependency_json(folder, output_file)`. -/
def generate_dependency_json (fs : SimFS) (folder outputFile : String) : SimFS :=
  write_files fs outputFile (jsonDumps (scanIndex fs folder))

/-! Concrete fixtures used by the counterexamples. -/

/-- Cyclic require graph: `a` requires `b` and `b` requires `a`. -/
def cycIdx : DepIndex := [("a.lua", [("b", "b")]), ("b.lua", [("a", "a")])]

/-- Acyclic diamond require graph: `a` requires `b` and `c`, both of
which require `d`. -/
def diamondIdx : DepIndex :=
  [("a.lua", [("b", "b"), ("c", "c")]), ("b.lua", [("d", "d")]),
   ("c.lua", [("d", "d")]), ("d.lua", [])]

/-- The `key → alias.lua` edge pairs of an index (an edge of the require
graph between index keys). -/
def edgePairs (idx : DepIndex) : List (String × String) :=
  (idx.map fun kv => kv.2.map fun v => (kv.1, v.1 ++ ".lua")).flatten

/-- A rank function witnessing that `diamondIdx` is acyclic. -/
def diamondRank (s : String) : Nat :=
  if s = "a.lua" then 3 else if s = "b.lua" then 2 else if s = "c.lua" then 2 else 1

/-- Index for the C3 scenario: the target `t.lua` declares aliases `m`
and `n`, both bound to dotted path `m`; module `x` requires `y` at
`m.y`; `y` is a key with no requires. -/
def c3Idx : DepIndex :=
  [("t.lua", [("m", "m"), ("n", "m")]), ("x.lua", [("y", "m.y")]), ("y.lua", [])]

/-- File system for the C3 scenario. -/
def c3FS : SimFS :=
  ⟨[("deps.json", jsonDumps c3Idx), ("P/S/t.lua", "m.x()\nn.y()"),
    ("P/m/y.lua", "y.f()")], []⟩

/-- Index for the C4 scenario: `t.lua` references module `m`; `x` (the
stripped segment of `m.x`) requires `b`, and `b` is an index key — but
the file `P/b.lua` is absent from the file system. -/
def c4Idx : DepIndex :=
  [("t.lua", [("m", "m")]), ("x.lua", [("b", "b")]), ("b.lua", [])]

/-- File system for the C4 scenario (target and index present, the
in-index dependency module file `P/b.lua` missing). -/
def c4FS : SimFS :=
  ⟨[("deps.json", jsonDumps c4Idx), ("P/S/t.lua", "m.x()")], []⟩

/-- File system for the C9 scenario: a single target that declares no
require statement. -/
def c9FS : SimFS := ⟨[("P/S/t.lua", "print(1)")], []⟩

/-- Index file content giving the target an entry with an empty
dependency list (the amended C9 case). -/
def c9EmptyEntryJson : String := "\x7b\"t.lua\": []\x7d"

/-- File system for the amended C9 case. -/
def c9FSb : SimFS :=
  ⟨[("deps.json", c9EmptyEntryJson), ("P/S/t.lua", "print(1)")], []⟩

/-- Index for the C5 counterexample: both the second (`b`) and the last
(`c`) dotted segment of `a.b.c` are index keys with no requires. -/
def c5Idx : DepIndex := [("b.lua", []), ("c.lua", [])]

/-! Claim theorems. -/

/-- On the cyclic two-module index, every element of the queue stays in
`{a, b}` and the queue never empties, so the unguarded walk never
finishes within any iteration budget. -/
theorem cycRunNone : ∀ (fuel : Nat) (q acc : List String), q ≠ [] →
    (∀ t ∈ q, t = "a" ∨ t = "b") → extractDepsRun cycIdx fuel q acc = none := by
  intro fuel
  induction fuel with
  | zero =>
    intro q acc hq _
    cases q with
    | nil => exact absurd rfl hq
    | cons t rest => rfl
  | succ f ih =>
    intro q acc hq hmem
    cases q with
    | nil => exact absurd rfl hq
    | cons t rest =>
      rcases hmem t (List.mem_cons_self t rest) with h | h
      · subst h
        have h1 : extractDepsRun cycIdx (f + 1) ("a" :: rest) acc
            = extractDepsRun cycIdx f (rest ++ ["b"]) (acc ++ ["a"]) := rfl
        rw [h1]
        apply ih
        · simp
        · intro u hu
          rcases List.mem_append.mp hu with h2 | h2
          · exact hmem u (List.mem_cons_of_mem _ h2)
          · right
            simpa using h2
      · subst h
        have h1 : extractDepsRun cycIdx (f + 1) ("b" :: rest) acc
            = extractDepsRun cycIdx f (rest ++ ["a"]) (acc ++ ["b"]) := rfl
        rw [h1]
        apply ih
        · simp
        · intro u hu
          rcases List.mem_append.mp hu with h2 | h2
          · exact hmem u (List.mem_cons_of_mem _ h2)
          · left
            simpa using h2

/-- C1: on the index where module `a` requires `b` and `b` requires `a`,
`extract_dependencies` never terminates: for every iteration budget the
walk is still running (it keeps re-enqueuing `a` and `b`), so it does not
return the finite reachable set — the code lacks the visited-set guard
the specification requires. -/
theorem c1_closure_walk_diverges_on_cycle (fuel : Nat) :
    extract_dependencies "a" cycIdx fuel = none := by
  have hs : stripUnique "a" = "a" := by decide
  show extractDepsRun cycIdx fuel [stripUnique "a"] [] = none
  rw [hs]
  refine cycRunNone fuel ["a"] [] (by simp) ?_
  intro t ht
  left
  simpa using ht

/-- C2: on the acyclic diamond index (rank strictly decreases along every
require edge, so the graph has no cycle), `extract_dependencies` from
`a` terminates but returns `d` twice — the returned closure is exactly
the reachable index keys, yet a module name can appear more than once,
contradicting the at-most-once part of the claim. -/
theorem c2_acyclic_walk_returns_duplicates :
    (∀ e ∈ edgePairs diamondIdx, diamondRank e.2 < diamondRank e.1)
    ∧ extract_dependencies "a" diamondIdx 6 = some ["a", "b", "c", "d", "d"]
    ∧ ¬ (["a", "b", "c", "d", "d"] : List String).Nodup := by decide

/-- C5 counterexample: for the qualified alias `a.b.c` the walk is seeded
with the second dotted segment `b`, not with the last segment `c`: on an
index containing both `b.lua` and `c.lua`, seeding behaviour differs. -/
theorem c5_counterexample_second_not_last :
    extract_dependencies "a.b.c" c5Idx 2 = some ["b"]
    ∧ extractDepsRun c5Idx 2 ["c"] [] = some ["c"]
    ∧ extract_dependencies "a.b.c" c5Idx 2 ≠ extractDepsRun c5Idx 2 ["c"] [] := by
  decide

/-- C5 amended: a start alias containing a dot is stripped to its second
dotted segment (`unique.split('.')[1]`) before seeding the walk; an
alias without a dot seeds the walk unchanged. -/
theorem c5_walk_seeded_with_second_segment (u : String) (idx : DepIndex) (fuel : Nat) :
    (u.data.contains '.' = true →
      extract_dependencies u idx fuel
        = extractDepsRun idx fuel [(pySplitDot u).getD 1 ""] [])
    ∧ (u.data.contains '.' = false →
      extract_dependencies u idx fuel = extractDepsRun idx fuel [u] []) := by
  constructor
  · intro h
    unfold extract_dependencies stripUnique
    rw [h]
    simp
  · intro h
    unfold extract_dependencies stripUnique
    rw [h]
    simp

/-- Witness instantiating `c5_walk_seeded_with_second_segment` at the
concrete qualified alias `a.b.c`. -/
theorem c5_walk_seeded_with_second_segment_witness :
    "a.b.c".data.contains '.' = true
    ∧ extract_dependencies "a.b.c" c5Idx 2
        = extractDepsRun c5Idx 2 [(pySplitDot "a.b.c").getD 1 ""] [] :=
  ⟨by decide, (c5_walk_seeded_with_second_segment "a.b.c" c5Idx 2).1 (by decide)⟩

/-- C7: on source holding the declaration-form definition
`function Widget.make(x)\n  return x\nend`, extraction with the
qualified name `Widget.make` returns the exact block from `function`
through the matching line-leading `end`; and whenever neither the
assignment-form nor the declaration-form pattern matches anywhere in the
code, the extractor returns not-found. -/
theorem c7_extract_function_block_forms :
    extract_function_block "function Widget.make(x)\n  return x\nend" "Widget.make"
      = some "function Widget.make(x)\n  return x\nend"
    ∧ (∀ code name : String, searchAssignForm code name = none →
        searchDeclForm code name = none → extract_function_block code name = none) := by
  constructor
  · decide
  · intro code name h1 h2
    unfold extract_function_block
    rw [h1, h2]

/-- Witness instantiating `c7_extract_function_block_forms` at a
qualified name matched by neither pattern. -/
theorem c7_extract_function_block_forms_witness :
    searchAssignForm "function Widget.make(x)\n  return x\nend" "Widget.other" = none
    ∧ searchDeclForm "function Widget.make(x)\n  return x\nend" "Widget.other" = none
    ∧ extract_function_block "function Widget.make(x)\n  return x\nend" "Widget.other"
        = none :=
  ⟨by decide, by decide,
    c7_extract_function_block_forms.2 "function Widget.make(x)\n  return x\nend"
      "Widget.other" (by decide) (by decide)⟩

/-- Stripping a literal succeeds exactly on an extension of it. -/
theorem stripPrefixChars_eq : ∀ (p s r : List Char),
    stripPrefixChars p s = some r → s = p ++ r := by
  intro p
  induction p with
  | nil =>
    intro s r h
    simp [stripPrefixChars] at h
    simpa using h
  | cons c cs ih =>
    intro s r h
    cases s with
    | nil => simp [stripPrefixChars] at h
    | cons d ds =>
      unfold stripPrefixChars at h
      split at h
      · next hc => rw [List.cons_append, ← ih ds r h, hc]
      · exact absurd h (by simp)

/-- A stripped literal occurs at the head. -/
theorem occursInB_of_stripSome (p s : List Char)
    (h : (stripPrefixChars p s).isSome = true) : occursInB p s = true := by
  cases s with
  | nil => simpa [occursInB] using h
  | cons c cs => simp [occursInB, h]

/-- Occurrence is stable under prepending. -/
theorem occursInB_append (p pre s : List Char) (h : occursInB p s = true) :
    occursInB p (pre ++ s) = true := by
  induction pre with
  | nil => simpa using h
  | cons c cs ih => simp [occursInB, ih]

/-- Stripping a list from itself extended. -/
theorem stripPrefixChars_self (p t : List Char) :
    stripPrefixChars p (p ++ t) = some t := by
  induction p with
  | nil => rfl
  | cons c cs ih => simp [stripPrefixChars, ih]

/-- The word run and the remainder reassemble the input. -/
theorem takeWordRun_eq : ∀ l : List Char, (takeWordRun l).1 ++ (takeWordRun l).2 = l := by
  intro l
  induction l with
  | nil => rfl
  | cons c cs ih =>
    by_cases hc : isWordChar c = true
    · simp [takeWordRun, hc, ih]
    · simp [takeWordRun, hc]

/-- Every character of the word run is a word character. -/
theorem takeWordRun_word : ∀ (l : List Char) (c : Char),
    c ∈ (takeWordRun l).1 → isWordChar c = true := by
  intro l
  induction l with
  | nil => intro c h; simp [takeWordRun] at h
  | cons d ds ih =>
    intro c h
    by_cases hd : isWordChar d = true
    · simp [takeWordRun, hd] at h
      rcases h with h | h
      · rwa [h]
      · exact ih c h
    · simp [takeWordRun, hd] at h

/-- Anatomy of one reference match: the matched text is the module name,
a dot and a non-empty identifier run, and it is an exact front segment of
the scanned suffix. -/
theorem matchRefAt_eq (modName s m rem : List Char)
    (h : matchRefAt modName s = some (m, rem)) :
    (∃ run, run ≠ [] ∧ (∀ c ∈ run, isWordChar c = true)
      ∧ m = modName ++ '.' :: run) ∧ s = m ++ rem := by
  unfold matchRefAt at h
  split at h
  · exact absurd h (by simp)
  · exact absurd h (by simp)
  · next c s2 hst =>
    by_cases hc : c = '.'
    · rw [if_pos hc] at h
      by_cases he : (takeWordRun s2).1.isEmpty = true
      · rw [if_pos he] at h; exact absurd h (by simp)
      · rw [if_neg he] at h
        injection h with h1
        rw [Prod.mk.injEq] at h1
        obtain ⟨hm, hr⟩ := h1
        constructor
        · refine ⟨(takeWordRun s2).1, ?_, ?_, hm.symm⟩
          · simpa [List.isEmpty_iff] using he
          · exact takeWordRun_word s2
        · have hs2 : s = modName ++ c :: s2 := stripPrefixChars_eq _ _ _ hst
          rw [hs2, ← hm, ← hr, hc]
          have h3 : modName ++ '.' :: (takeWordRun s2).1 ++ (takeWordRun s2).2
              = modName ++ '.' :: ((takeWordRun s2).1 ++ (takeWordRun s2).2) := by
            simp
          rw [h3, takeWordRun_eq s2]
    · rw [if_neg hc] at h; exact absurd h (by simp)

/-- Soundness of the reference scan: every returned match has the
`module.identifier` shape and occurs in the scanned text. -/
theorem scanRefs_sound : ∀ (fuel : Nat) (modName s m : List Char),
    m ∈ scanRefs modName fuel s →
    (∃ run, run ≠ [] ∧ (∀ c ∈ run, isWordChar c = true)
      ∧ m = modName ++ '.' :: run) ∧ occursInB m s = true := by
  intro fuel
  induction fuel with
  | zero => intro modName s m h; simp [scanRefs] at h
  | succ f ih =>
    intro modName s m h
    cases s with
    | nil => simp [scanRefs] at h
    | cons c cs =>
      unfold scanRefs at h
      cases hma : matchRefAt modName (c :: cs) with
      | none =>
        rw [hma] at h
        obtain ⟨hshape, hocc⟩ := ih modName cs m h
        refine ⟨hshape, ?_⟩
        simp [occursInB, hocc]
      | some pr =>
        obtain ⟨mm, rem⟩ := pr
        rw [hma] at h
        obtain ⟨hshape, hsplit⟩ := matchRefAt_eq modName (c :: cs) mm rem hma
        rcases List.mem_cons.mp h with h1 | h1
        · subst h1
          refine ⟨hshape, ?_⟩
          rw [hsplit]
          exact occursInB_of_stripSome m (m ++ rem) (by simp [stripPrefixChars_self])
        · obtain ⟨hshape2, hocc2⟩ := ih modName rem m h1
          refine ⟨hshape2, ?_⟩
          rw [hsplit]
          exact occursInB_append m mm rem hocc2

/-- When the module name does not occur in the text the scan finds
nothing. -/
theorem scanRefs_empty : ∀ (fuel : Nat) (modName s : List Char),
    occursInB modName s = false → scanRefs modName fuel s = [] := by
  intro fuel
  induction fuel with
  | zero => intro modName s _; rfl
  | succ f ih =>
    intro modName s h
    cases s with
    | nil => rfl
    | cons c cs =>
      have h2 : (stripPrefixChars modName (c :: cs)).isSome = false
          ∧ occursInB modName cs = false := by
        simpa [occursInB] using h
      have hma : matchRefAt modName (c :: cs) = none := by
        unfold matchRefAt
        cases hst : stripPrefixChars modName (c :: cs) with
        | none => rfl
        | some s1 => rw [hst] at h2; simp at h2
      unfold scanRefs
      rw [hma]
      exact ih modName cs h2.2

/-- C8 amended: `find_references` performs a left-to-right
non-overlapping scan — the example yields exactly `alias.foo` and
`alias.bar`, every returned string is the alias followed by `.` and a
non-empty identifier and occurs in the code, and code in which the alias
does not occur yields the empty list; occurrences overlapping an earlier
match are not returned. -/
theorem c8_find_references_scan (code alias0 : String) :
    find_references "alias.foo(1)\nalias.bar(2)" "alias" = ["alias.foo", "alias.bar"]
    ∧ (∀ r ∈ find_references code alias0,
        (∃ run, run ≠ [] ∧ (∀ c ∈ run, isWordChar c = true)
          ∧ r.data = alias0.data ++ '.' :: run)
        ∧ occursInB r.data code.data = true)
    ∧ (occursInB alias0.data code.data = false → find_references code alias0 = []) := by
  refine ⟨by decide, ?_, ?_⟩
  · intro r hr
    obtain ⟨l, hl, hlr⟩ := List.mem_map.mp hr
    obtain ⟨hshape, hocc⟩ := scanRefs_sound _ alias0.data code.data l hl
    have hdata : r.data = l := by rw [← hlr]
    rw [hdata]
    exact ⟨hshape, hocc⟩
  · intro h
    unfold find_references
    rw [scanRefs_empty _ alias0.data code.data h]
    rfl

/-- Witness instantiating `c8_find_references_scan`: shape and occurrence
of the first returned match of the example, and the empty result on code
without the alias. -/
theorem c8_find_references_scan_witness :
    ((∃ run, run ≠ [] ∧ (∀ c ∈ run, isWordChar c = true)
        ∧ ("alias.foo").data = ("alias").data ++ '.' :: run)
      ∧ occursInB ("alias.foo").data ("alias.foo(1)\nalias.bar(2)").data = true)
    ∧ find_references "local x = 1" "alias" = [] :=
  ⟨(c8_find_references_scan "alias.foo(1)\nalias.bar(2)" "alias").2.1 "alias.foo"
      (by decide),
   (c8_find_references_scan "local x = 1" "alias").2.2 (by decide)⟩

/-- C8 counterexample: on code `a.a.b` with alias `a`, the text `a.b` is
an occurrence of the alias immediately followed by `.` and a bare
identifier (it stands at offset 2 and occurs in the code), yet the
returned list holds only `a.a`: the result is not the multiset of all
such occurrences, because the scan is non-overlapping. -/
theorem c8_counterexample_overlapping_occurrence :
    find_references "a.a.b" "a" = ["a.a"]
    ∧ matchRefAt ("a").data (("a.a.b").data.drop 2) = some (("a.b").data, [])
    ∧ occursInB ("a.b").data ("a.a.b").data = true
    ∧ "a.b" ∉ find_references "a.a.b" "a" := by decide

/-- Looking up the key just set yields the new value. -/
theorem alistLookup_set_self {α : Type} (m : List (String × α)) (k : String) (v : α) :
    alistLookup (alistSet m k v) k = some v := by
  induction m with
  | nil => simp [alistSet, alistLookup]
  | cons kv rest ih =>
    obtain ⟨k0, v0⟩ := kv
    by_cases h : k0 = k
    · simp [alistSet, h, alistLookup]
    · simp [alistSet, h, alistLookup, ih]

/-- Setting one key leaves every other lookup unchanged. -/
theorem alistLookup_set_ne {α : Type} (m : List (String × α)) (k k' : String) (v : α)
    (h : k' ≠ k) : alistLookup (alistSet m k v) k' = alistLookup m k' := by
  induction m with
  | nil => simp [alistSet, alistLookup, Ne.symm h]
  | cons kv rest ih =>
    obtain ⟨k0, v0⟩ := kv
    by_cases h0 : k0 = k
    · subst h0
      simp [alistSet, alistLookup, Ne.symm h]
    · simp [alistSet, h0, alistLookup, ih]

/-- The inner merge loop only appends values to the current list. -/
theorem mergeVals_grows : ∀ (vals cur : List String), ∃ e, mergeVals cur vals = cur ++ e := by
  intro vals
  induction vals with
  | nil => exact fun cur => ⟨[], by simp [mergeVals]⟩
  | cons v vs ih =>
    intro cur
    by_cases hv : v ∈ cur
    · have h1 : mergeVals cur (v :: vs) = mergeVals cur vs := by
        simp [mergeVals, List.foldl_cons, hv]
      rw [h1]
      exact ih cur
    · have h1 : mergeVals cur (v :: vs) = mergeVals (cur ++ [v]) vs := by
        simp [mergeVals, List.foldl_cons, hv]
      rw [h1]
      obtain ⟨e, he⟩ := ih (cur ++ [v])
      exact ⟨[v] ++ e, by rw [he, List.append_assoc]⟩

/-- Merging a `return_obj` into the map only appends to every entry
already present. -/
theorem mergeReturnObj_grows : ∀ (ret m : EMap) (k : String) (vs : List String),
    alistLookup m k = some vs →
    ∃ e, alistLookup (mergeReturnObj m ret) k = some (vs ++ e) := by
  intro ret
  induction ret with
  | nil => exact fun m k vs h => ⟨[], by simpa [mergeReturnObj] using h⟩
  | cons kv rest ih =>
    intro m k vs h
    obtain ⟨k1, vals1⟩ := kv
    by_cases hk : k1 = k
    · subst hk
      have h1 : mergeReturnObj m ((k1, vals1) :: rest)
          = mergeReturnObj (alistSet m k1 (mergeVals vs vals1)) rest := by
        simp [mergeReturnObj, List.foldl_cons, h]
      rw [h1]
      obtain ⟨e1, he1⟩ := mergeVals_grows vals1 vs
      have h2 : alistLookup (alistSet m k1 (mergeVals vs vals1)) k1
          = some (vs ++ e1) := by
        rw [alistLookup_set_self, he1]
      obtain ⟨e2, he2⟩ := ih _ k1 (vs ++ e1) h2
      exact ⟨e1 ++ e2, by rw [he2, List.append_assoc]⟩
    · have hne : k ≠ k1 := fun hh => hk hh.symm
      cases hlk : alistLookup m k1 with
      | none =>
        have h1 : mergeReturnObj m ((k1, vals1) :: rest)
            = mergeReturnObj (alistSet m k1 vals1) rest := by
          simp [mergeReturnObj, List.foldl_cons, hlk]
        rw [h1]
        exact ih _ k vs (by rw [alistLookup_set_ne _ _ _ _ hne]; exact h)
      | some cur =>
        have h1 : mergeReturnObj m ((k1, vals1) :: rest)
            = mergeReturnObj (alistSet m k1 (mergeVals cur vals1)) rest := by
          simp [mergeReturnObj, List.foldl_cons, hlk]
        rw [h1]
        exact ih _ k vs (by rw [alistLookup_set_ne _ _ _ _ hne]; exact h)

/-- C3 counterexample: one bundling resolution of the target `t.lua`
(aliases `m` and `n`, both on dotted path `m`): the second `unique` step
(`n.y`, a non-leaf) assigns the empty list to its combo path
`P/m/y.lua`, overwriting the entry `["y.f"]` accumulated by the first
step — the map entry shrinks, the run still completes. -/
theorem c3_counterexample_combo_overwrite :
    jsonLoadsIndex (pyRstrip (jsonDumps c3Idx)) = some c3Idx
    ∧ alistLookup c3Idx "t.lua" = some [("m", "m"), ("n", "m")]
    ∧ read_lua_file c3FS "P/S/t.lua" = some "m.x()\nn.y()"
    ∧ extractDepenObjTrace c3FS "P" "m.x()\nn.y()" c3Idx [("m", "m"), ("n", "m")] 10
        = some [[], [("P/m/x.lua", []), ("P/m/y.lua", ["y.f"])],
                [("P/m/x.lua", []), ("P/m/y.lua", [])]]
    ∧ buildExtractDepenObj c3FS "P" "m.x()\nn.y()" c3Idx [("m", "m"), ("n", "m")] 10
        = some [("P/m/x.lua", []), ("P/m/y.lua", [])]
    ∧ alistLookup ([("P/m/x.lua", []), ("P/m/y.lua", ["y.f"])] : EMap) "P/m/y.lua"
        = some ["y.f"]
    ∧ alistLookup ([("P/m/x.lua", []), ("P/m/y.lua", [])] : EMap) "P/m/y.lua"
        = some []
    ∧ "y.f" ∉ ([] : List String)
    ∧ (get_target_code c3FS "P" "S" "t.lua" "deps.json" 10).isSome = true := by
  decide

/-- C3 amended: one `unique` step of the resolution either appends to an
existing entry (leaf branch and every `return_obj` merge are
append-only) or — exactly at the combo path of a non-leaf `unique` —
replaces the entry, starting it over from the empty list before the
merge. -/
theorem c3_map_updates_grow_except_combo (fs : SimFS)
    (parentFolder reference : String) (folderFlag : Bool) (idx : DepIndex)
    (fuel : Nat) (m : EMap) (u : String) (m2 : EMap)
    (h : processUnique fs parentFolder reference folderFlag idx fuel m u = some m2) :
    ∀ k vs, alistLookup m k = some vs →
      (∃ e, alistLookup m2 k = some (vs ++ e))
      ∨ (k = comboPath parentFolder reference u ∧ ∃ l, alistLookup m2 k = some l) := by
  intro k vs hk
  unfold processUnique at h
  split at h
  · exact absurd h (by simp)
  · split at h
    · injection h with h1
      subst h1
      left
      unfold growEntry
      by_cases ht : leafTarget parentFolder reference folderFlag = k
      · rw [ht, hk]
        exact ⟨[u], by rw [alistLookup_set_self]⟩
      · have hne : k ≠ leafTarget parentFolder reference folderFlag :=
          fun hh => ht hh.symm
        refine ⟨[], ?_⟩
        rw [List.append_nil]
        cases hlt : alistLookup m (leafTarget parentFolder reference folderFlag) with
        | none => rw [alistLookup_set_ne _ _ _ _ hne]; exact hk
        | some vs0 => rw [alistLookup_set_ne _ _ _ _ hne]; exact hk
    · split at h
      · exact absurd h (by simp)
      · next ret hp =>
        injection h with h1
        subst h1
        by_cases hc : k = comboPath parentFolder reference u
        · right
          refine ⟨hc, ?_⟩
          have h0 : alistLookup (alistSet m (comboPath parentFolder reference u) []) k
              = some [] := by
            rw [hc]; exact alistLookup_set_self _ _ _
          obtain ⟨e, he⟩ := mergeReturnObj_grows ret _ k [] h0
          exact ⟨[] ++ e, he⟩
        · left
          have h0 : alistLookup (alistSet m (comboPath parentFolder reference u) []) k
              = some vs := by
            rw [alistLookup_set_ne _ _ _ _ hc]; exact hk
          exact mergeReturnObj_grows ret _ k vs h0

/-- Witness instantiating `c3_map_updates_grow_except_combo` at the
second `unique` step of the C3 scenario. -/
theorem c3_map_updates_grow_except_combo_witness :
    processUnique c3FS "P" "m" false c3Idx 10
        [("P/m/x.lua", []), ("P/m/y.lua", ["y.f"])] "n.y"
      = some [("P/m/x.lua", []), ("P/m/y.lua", [])]
    ∧ ((∃ e, alistLookup ([("P/m/x.lua", []), ("P/m/y.lua", [])] : EMap) "P/m/y.lua"
          = some (["y.f"] ++ e))
        ∨ ("P/m/y.lua" = comboPath "P" "m" "n.y"
            ∧ ∃ l, alistLookup ([("P/m/x.lua", []), ("P/m/y.lua", [])] : EMap)
                "P/m/y.lua" = some l)) :=
  ⟨by decide,
    c3_map_updates_grow_except_combo c3FS "P" "m" false c3Idx 10
      [("P/m/x.lua", []), ("P/m/y.lua", ["y.f"])] "n.y"
      [("P/m/x.lua", []), ("P/m/y.lua", [])] (by decide) "P/m/y.lua" ["y.f"]
      (by decide)⟩

/-- C4 counterexample: target file and persisted index both present, the
dependency module `b` has an index entry (`b.lua` is a key) but its file
`P/b.lua` is missing — the bundling run propagates the error instead of
skipping the dependency. -/
theorem c4_counterexample_missing_dependency_raises :
    read_lua_file c4FS "deps.json" = some (jsonDumps c4Idx)
    ∧ read_lua_file c4FS "P/S/t.lua" = some "m.x()"
    ∧ read_lua_file c4FS "P/b.lua" = none
    ∧ alistLookup c4Idx "b.lua" = some []
    ∧ get_target_code c4FS "P" "S" "t.lua" "deps.json" 10 = none := by decide

/-- C4 amended: a missing dependency module file is skipped only in the
branch where the module has no index entry; when the module has an index
entry and its file is missing, the read error propagates — as do a
missing persisted index file and a missing target file. -/
theorem c4_missing_file_policy :
    (∀ (fs : SimFS) (parentFolder : String) (idx : DepIndex) (m : EMap)
        (value : String × String),
      alistLookup idx (value.1 ++ ".lua") = none →
      read_lua_file fs (parentFolder ++ "/" ++ dotToSlash value.2 ++ ".lua") = none →
      parseValueStep fs parentFolder idx m value = some m)
    ∧ (∀ (fs : SimFS) (parentFolder : String) (idx : DepIndex) (m : EMap)
        (value : String × String),
      (alistLookup idx (value.1 ++ ".lua")).isSome = true →
      read_lua_file fs (parentFolder ++ "/" ++ dotToSlash value.2 ++ ".lua") = none →
      parseValueStep fs parentFolder idx m value = none)
    ∧ (∀ (fs : SimFS) (pf sf fn df : String) (fuel : Nat),
      read_lua_file fs df = none → get_target_code fs pf sf fn df fuel = none)
    ∧ (∀ (fs : SimFS) (pf sf fn df : String) (fuel : Nat) (s : String)
        (idx : DepIndex) (arr : List (String × String)),
      read_lua_file fs df = some s → jsonLoadsIndex (pyRstrip s) = some idx →
      alistLookup idx fn = some arr →
      read_lua_file fs (pf ++ "/" ++ sf ++ "/" ++ fn) = none →
      get_target_code fs pf sf fn df fuel = none) := by
  refine ⟨?_, ?_, ?_, ?_⟩
  · intro fs parentFolder idx m value h1 h2
    simp [parseValueStep, h1, h2]
  · intro fs parentFolder idx m value h1 h2
    simp [parseValueStep, h1, h2]
  · intro fs pf sf fn df fuel h
    simp [get_target_code, h]
  · intro fs pf sf fn df fuel s idx arr h1 h2 h3 h4
    simp [get_target_code, h1, h2, h3, h4]

/-- Witness instantiating all four parts of `c4_missing_file_policy` on
the C4 file system. -/
theorem c4_missing_file_policy_witness :
    parseValueStep c4FS "P" [] [] ("z", "z") = some []
    ∧ parseValueStep c4FS "P" c4Idx [] ("b", "b") = none
    ∧ get_target_code c4FS "P" "S" "t.lua" "missing.json" 3 = none
    ∧ get_target_code c4FS "P" "S2" "t.lua" "deps.json" 3 = none :=
  ⟨c4_missing_file_policy.1 c4FS "P" [] [] ("z", "z") (by decide) (by decide),
   c4_missing_file_policy.2.1 c4FS "P" c4Idx [] ("b", "b") (by decide) (by decide),
   c4_missing_file_policy.2.2.1 c4FS "P" "S" "t.lua" "missing.json" 3 (by decide),
   c4_missing_file_policy.2.2.2 c4FS "P" "S2" "t.lua" "deps.json" 3
     (jsonDumps c4Idx) c4Idx [("m", "m")] (by decide) (by decide) (by decide)
     (by decide)⟩

/-- Every binding of the scanner fold comes from the accumulator or from
a recorded file of the walked list. -/
theorem scanFold_sound (folder : String) :
    ∀ (l : List (String × String)) (acc : DepIndex) (name : String)
      (v : List (String × String)),
    alistLookup (l.foldl (scanFileStep folder) acc) name = some v →
    alistLookup acc name = some v ∨
      ∃ e ∈ l, scanRecorded folder e = true ∧ baseNameOf e.1 = name
        ∧ extract_local_requirements e.2 = v := by
  intro l
  induction l with
  | nil =>
    intro acc name v h
    left
    simpa using h
  | cons e rest ih =>
    intro acc name v h
    rw [List.foldl_cons] at h
    rcases ih _ name v h with h1 | h1
    · unfold scanFileStep at h1
      by_cases hr : scanRecorded folder e = true
      · rw [if_pos hr] at h1
        by_cases hn : baseNameOf e.1 = name
        · right
          refine ⟨e, List.mem_cons_self e rest, hr, hn, ?_⟩
          rw [hn] at h1
          rw [alistLookup_set_self] at h1
          exact (Option.some.inj h1)
        · left
          rwa [alistLookup_set_ne _ _ _ _ (fun hh => hn hh.symm)] at h1
      · rw [if_neg hr] at h1
        left
        exact h1
    · right
      obtain ⟨e2, he2, hrest⟩ := h1
      exact ⟨e2, List.mem_cons_of_mem e he2, hrest⟩

/-- A binding survives the scanner fold when every recorded file of the
remaining walk that shares the bare name carries the same requirement
list. -/
theorem scanFold_keeps (folder : String) :
    ∀ (l : List (String × String)) (acc : DepIndex) (name : String)
      (v : List (String × String)),
    alistLookup acc name = some v →
    (∀ e ∈ l, scanRecorded folder e = true → baseNameOf e.1 = name →
      extract_local_requirements e.2 = v) →
    alistLookup (l.foldl (scanFileStep folder) acc) name = some v := by
  intro l
  induction l with
  | nil =>
    intro acc name v h _
    simpa using h
  | cons e rest ih =>
    intro acc name v h hsame
    rw [List.foldl_cons]
    refine ih _ name v ?_ ?_
    · unfold scanFileStep
      by_cases hr : scanRecorded folder e = true
      · rw [if_pos hr]
        by_cases hn : baseNameOf e.1 = name
        · rw [hn, hsame e (List.mem_cons_self e rest) hr hn]
          exact alistLookup_set_self _ _ _
        · rw [alistLookup_set_ne _ _ _ _ (fun hh => hn hh.symm)]
          exact h
      · rw [if_neg hr]
        exact h
    · intro e2 he2 hr2 hn2
      exact hsame e2 (List.mem_cons_of_mem e he2) hr2 hn2

/-- A recorded file of the walk ends up bound to its requirement list
when every recorded file sharing its bare name carries the same list. -/
theorem scanFold_complete (folder : String) :
    ∀ (l : List (String × String)) (acc : DepIndex) (e : String × String),
    e ∈ l → scanRecorded folder e = true →
    (∀ e2 ∈ l, scanRecorded folder e2 = true →
      baseNameOf e2.1 = baseNameOf e.1 →
      extract_local_requirements e2.2 = extract_local_requirements e.2) →
    alistLookup (l.foldl (scanFileStep folder) acc) (baseNameOf e.1)
      = some (extract_local_requirements e.2) := by
  intro l
  induction l with
  | nil =>
    intro acc e he
    simp at he
  | cons e0 rest ih =>
    intro acc e he hr hsame
    rw [List.foldl_cons]
    rcases List.mem_cons.mp he with h1 | h1
    · subst h1
      refine scanFold_keeps folder rest _ _ _ ?_ ?_
      · unfold scanFileStep
        rw [if_pos hr]
        exact alistLookup_set_self _ _ _
      · intro e2 he2 hr2 hn2
        exact hsame e2 (List.mem_cons_of_mem e he2) hr2 hn2
    · refine ih _ e h1 hr ?_
      intro e2 he2 hr2 hn2
      exact hsame e2 (List.mem_cons_of_mem e0 he2) hr2 hn2

/-- C6 counterexample: two files in different directories share the bare
name `x.lua` and both declare a local require; the index binds the bare
name to the later-walked file's pair list, so the earlier file is not
mapped to its own `(alias, dotted-path)` pairs. -/
theorem c6_counterexample_bare_name_collision :
    extract_local_requirements "local p = require \"q\"" = [("p", "q")]
    ∧ underFolder "R" "R/a/x.lua" = true
    ∧ endsWithLua (baseNameOf "R/a/x.lua") = true
    ∧ scanIndex (⟨[("R/a/x.lua", "local p = require \"q\""),
        ("R/b/x.lua", "local r = require \"s\"")], []⟩ : SimFS) "R"
        = [("x.lua", [("r", "s")])]
    ∧ alistLookup (scanIndex (⟨[("R/a/x.lua", "local p = require \"q\""),
        ("R/b/x.lua", "local r = require \"s\"")], []⟩ : SimFS) "R")
        (baseNameOf "R/a/x.lua")
        ≠ some (extract_local_requirements "local p = require \"q\"") := by decide

/-- C6 amended: the scanner index binds a bare name exactly for the
walked `.lua` files under the root that declare at least one local
require (files with none are omitted); each such file's bare name maps
to its own pair list provided no other recorded file shares that bare
name with a different list — on a bare-name collision the later-walked
file's list wins. -/
theorem c6_scanner_records_requiring_files (fs : SimFS) (folder : String) :
    (∀ (name : String) (v : List (String × String)),
      alistLookup (scanIndex fs folder) name = some v →
      ∃ e ∈ fs.files, scanRecorded folder e = true ∧ baseNameOf e.1 = name
        ∧ extract_local_requirements e.2 = v)
    ∧ (∀ e ∈ fs.files, scanRecorded folder e = true →
      (∀ e2 ∈ fs.files, scanRecorded folder e2 = true →
        baseNameOf e2.1 = baseNameOf e.1 →
        extract_local_requirements e2.2 = extract_local_requirements e.2) →
      alistLookup (scanIndex fs folder) (baseNameOf e.1)
        = some (extract_local_requirements e.2)) := by
  constructor
  · intro name v h
    rcases scanFold_sound folder fs.files [] name v h with h1 | h1
    · simp [alistLookup] at h1
    · exact h1
  · intro e he hr hsame
    exact scanFold_complete folder fs.files [] e he hr hsame

/-- Witness instantiating `c6_scanner_records_requiring_files` on a
one-file tree. -/
theorem c6_scanner_records_requiring_files_witness :
    (∃ e ∈ (⟨[("R/a/x.lua", "local p = require \"q\"")], []⟩ : SimFS).files,
      scanRecorded "R" e = true ∧ baseNameOf e.1 = "x.lua"
        ∧ extract_local_requirements e.2 = [("p", "q")])
    ∧ alistLookup (scanIndex (⟨[("R/a/x.lua", "local p = require \"q\"")], []⟩ : SimFS)
        "R") (baseNameOf ("R/a/x.lua" : String))
        = some (extract_local_requirements "local p = require \"q\"") :=
  ⟨(c6_scanner_records_requiring_files
      (⟨[("R/a/x.lua", "local p = require \"q\"")], []⟩ : SimFS) "R").1
      "x.lua" [("p", "q")] (by decide),
   (c6_scanner_records_requiring_files
      (⟨[("R/a/x.lua", "local p = require \"q\"")], []⟩ : SimFS) "R").2
      ("R/a/x.lua", "local p = require \"q\"") (by decide) (by decide)
      (by decide)⟩

/-- C9 counterexample: a target that declares no require statement is
omitted from the scanner-built index, so the bundler takes the early
`return` and writes nothing at all — no delimiter-wrapped bundle file is
produced. -/
theorem c9_counterexample_no_requires_no_bundle :
    extract_local_requirements "print(1)" = []
    ∧ scanIndex c9FS "P" = []
    ∧ generate_dependency_json c9FS "P" "deps.json"
        = (⟨[("P/S/t.lua", "print(1)"), ("deps.json", "\x7b\x7d")], []⟩ : SimFS)
    ∧ get_target_code (generate_dependency_json c9FS "P" "deps.json")
        "P" "S" "t.lua" "deps.json" 5
        = some (generate_dependency_json c9FS "P" "deps.json")
    ∧ read_lua_file (generate_dependency_json c9FS "P" "deps.json") "P/S/t_new.lua"
        = none := by decide

/-- C9 amended: when the target has an index entry whose dependency list
is empty, the bundle appended to the output file is exactly the
delimiter-wrapped empty prologue followed by the target's unmodified
source; a target absent from the index produces no output at all. -/
theorem c9_empty_entry_bundle (fs : SimFS) (pf sf fn df : String) (fuel : Nat)
    (s orig : String) (idx : DepIndex)
    (h1 : read_lua_file fs df = some s)
    (h2 : jsonLoadsIndex (pyRstrip s) = some idx)
    (h3 : alistLookup idx fn = some [])
    (h4 : read_lua_file fs (pf ++ "/" ++ sf ++ "/" ++ fn) = some orig) :
    get_target_code fs pf sf fn df fuel
      = some (write_files fs
          (pf ++ "/" ++ sf ++ "/" ++ ((pySplitDot fn).getD 0 "" ++ "_new.lua"))
          (bundleText "" orig)) := by
  simp [get_target_code, h1, h2, h3, h4, buildExtractDepenObj, uniqueTasks,
    optFoldl, generate_new_combine_lua]

/-- Witness instantiating `c9_empty_entry_bundle` on the concrete file
system whose index maps the target to an empty dependency list. -/
theorem c9_empty_entry_bundle_witness :
    get_target_code c9FSb "P" "S" "t.lua" "deps.json" 5
      = some (write_files c9FSb
          ("P" ++ "/" ++ "S" ++ "/" ++ ((pySplitDot "t.lua").getD 0 "" ++ "_new.lua"))
          (bundleText "" "print(1)")) :=
  c9_empty_entry_bundle c9FSb "P" "S" "t.lua" "deps.json" 5 c9EmptyEntryJson
    "print(1)" [("t.lua", [])] (by decide) (by decide) (by decide) (by decide)

/-- Appending the empty string leaves a string unchanged. -/
theorem strAppendEmpty (s : String) : s ++ "" = s := by
  cases s with
  | mk d =>
    show String.mk (d ++ []) = String.mk d
    rw [List.append_nil]

/-- Reading back the path just appended to. -/
theorem read_write_self (fs : SimFS) (p c : String) :
    read_lua_file (write_files fs p c) p
      = some ((read_lua_file fs p).getD "" ++ c) := by
  unfold read_lua_file write_files
  exact alistLookup_set_self _ _ _

/-- An append leaves every other path unchanged. -/
theorem read_write_ne (fs : SimFS) (p c q : String) (h : q ≠ p) :
    read_lua_file (write_files fs p c) q = read_lua_file fs q := by
  unfold read_lua_file write_files
  exact alistLookup_set_ne _ _ _ _ h

/-- The bundle writer either fails on a missing target or performs
exactly one append to the original file system. -/
theorem generate_new_shape (fs : SimFS) (pf sf fn : String) (m : EMap) :
    generate_new_combine_lua fs pf sf fn m = none
    ∨ ∃ p c, generate_new_combine_lua fs pf sf fn m = some (write_files fs p c) := by
  unfold generate_new_combine_lua
  cases h : read_lua_file fs (pf ++ "/" ++ sf ++ "/" ++ fn) with
  | none => left; rfl
  | some orig => right; exact ⟨_, _, rfl⟩

/-- One bundling run either fails, returns the file system untouched
(early return), or performs exactly one append to it. -/
theorem get_target_code_shape (fs : SimFS) (pf sf fn df : String) (fuel : Nat) :
    get_target_code fs pf sf fn df fuel = none
    ∨ get_target_code fs pf sf fn df fuel = some fs
    ∨ ∃ p c, get_target_code fs pf sf fn df fuel = some (write_files fs p c) := by
  unfold get_target_code
  split
  · left; rfl
  · split
    · left; rfl
    · split
      · right; left; rfl
      · split
        · left; rfl
        · split
          · left; rfl
          · next m2 hm =>
            rcases generate_new_shape fs pf sf fn m2 with h | ⟨p, c, h⟩
            · left; exact h
            · right; right; exact ⟨p, c, h⟩

/-- C10: `write_files` appends — the written path afterwards holds its
previous content (empty when the file was absent) followed by the new
content, every other path is untouched; and each entry point preserves
every existing file's content as a prefix: `generate_dependency_json`
performs exactly one append (the serialized index), and a completed
`get_target_code` run leaves every pre-existing file's content as a
prefix of its final content (the bundle output path included). -/
theorem c10_all_writes_append :
    (∀ (fs : SimFS) (p c : String),
      read_lua_file (write_files fs p c) p
          = some ((read_lua_file fs p).getD "" ++ c)
      ∧ ∀ q, q ≠ p → read_lua_file (write_files fs p c) q = read_lua_file fs q)
    ∧ (∀ (fs : SimFS) (folder out p c0 : String),
      read_lua_file fs p = some c0 →
      ∃ s2, read_lua_file (generate_dependency_json fs folder out) p
        = some (c0 ++ s2))
    ∧ (∀ (fs : SimFS) (pf sf fn df : String) (fuel : Nat) (fs2 : SimFS),
      get_target_code fs pf sf fn df fuel = some fs2 →
      ∀ p c0, read_lua_file fs p = some c0 →
        ∃ s2, read_lua_file fs2 p = some (c0 ++ s2)) := by
  refine ⟨?_, ?_, ?_⟩
  · intro fs p c
    exact ⟨read_write_self fs p c, fun q hq => read_write_ne fs p c q hq⟩
  · intro fs folder out p c0 h
    unfold generate_dependency_json
    by_cases hp : p = out
    · subst hp
      refine ⟨jsonDumps (scanIndex fs folder), ?_⟩
      rw [read_write_self, h]
      rfl
    · refine ⟨"", ?_⟩
      rw [read_write_ne fs out _ p hp, h, strAppendEmpty]
  · intro fs pf sf fn df fuel fs2 h p c0 hp
    rcases get_target_code_shape fs pf sf fn df fuel with hs | hs | ⟨wp, wc, hs⟩
    · rw [h] at hs
      exact absurd hs (by simp)
    · rw [h] at hs
      injection hs with hs1
      subst hs1
      refine ⟨"", ?_⟩
      rw [hp, strAppendEmpty]
    · rw [h] at hs
      injection hs with hs1
      subst hs1
      by_cases hq : p = wp
      · subst hq
        refine ⟨wc, ?_⟩
        rw [read_write_self, hp]
        rfl
      · refine ⟨"", ?_⟩
        rw [read_write_ne fs wp wc p hq, hp, strAppendEmpty]

/-- Witness instantiating `c10_all_writes_append`: a concrete append, a
concrete scanner run, and the completed bundling run of the C9 file
system, each preserving the pre-existing content as a prefix. -/
theorem c10_all_writes_append_witness :
    read_lua_file (write_files (⟨[("f", "x")], []⟩ : SimFS) "f" "y") "f"
        = some ((read_lua_file (⟨[("f", "x")], []⟩ : SimFS) "f").getD "" ++ "y")
    ∧ (∃ s2, read_lua_file
        (generate_dependency_json (⟨[("f", "x")], []⟩ : SimFS) "Q" "out.json") "f"
        = some ("x" ++ s2))
    ∧ (∃ s2, read_lua_file
        (write_files c9FSb
          ("P" ++ "/" ++ "S" ++ "/" ++ ((pySplitDot "t.lua").getD 0 "" ++ "_new.lua"))
          (bundleText "" "print(1)")) "P/S/t.lua"
        = some ("print(1)" ++ s2)) :=
  ⟨(c10_all_writes_append.1 (⟨[("f", "x")], []⟩ : SimFS) "f" "y").1,
   c10_all_writes_append.2.1 (⟨[("f", "x")], []⟩ : SimFS) "Q" "out.json" "f" "x"
     (by decide),
   c10_all_writes_append.2.2 c9FSb "P" "S" "t.lua" "deps.json" 5
     (write_files c9FSb "P/S/t_new.lua" (bundleText "" "print(1)"))
     (by decide) "P/S/t.lua" "print(1)" (by decide)⟩
